import Mathlib

/-!
Verification of the model-compilation and pre-filtering core of a batch-auction
settlement solver (crates/solver: `auction_preprocessing.rs` and
`solver/http_solver.rs`).

Conventions of the shallow embedding:
* token addresses (`H160`) are represented by `Nat`;
* `U256` integer amounts are represented by `Nat`;
* `f64` values are represented by the exact rational (`ℚ`) they denote; the
  lossy narrowing `BigRational::to_f64` is an abstract parameter
  `toF64 : ℚ → Option ℚ` (`none` models a failed conversion);
* timestamps are `ℤ` (milliseconds); the representable range of `chrono`
  timestamps is abstracted by explicit bounds parameters;
* fallible operations return `Option`/`Except`; functions taking `&mut`
  state return the final state explicitly.
-/

namespace Services

abbrev Token := Nat

/-! ## Fee Viability Filter (`auction_preprocessing.rs`) -/

/-- Fields of `model::order::OrderCreation` used by the filter. -/
structure OrderCreation where
  sellToken : Token
  feeAmount : Nat
  deriving DecidableEq, Repr

/-- Fields of `model::order::OrderMetadata` used by the filter. -/
structure OrderMetadata where
  creationDate : ℤ
  deriving DecidableEq, Repr

/-- Fields of `model::order::Order` used by the filter (the struct itself is
declared outside the included sources; fields follow their use in
`auction_preprocessing.rs`). -/
structure Order where
  creation : OrderCreation
  metadata : OrderMetadata
  deriving DecidableEq, Repr

/-- `shared::conversions::u256_to_big_rational`: a `U256` as an exact rational. -/
def u256_to_big_rational (n : Nat) : ℚ := (n : ℚ)

/-- Modelled from the spec: `ExternalPrices::try_get_native_amount` is not under
`src/`; per the spec it looks up the token's price in the reference numeraire
and multiplies by the amount in exact rational arithmetic, failing when the
price is missing. -/
def try_get_native_amount (externalPrices : Token → Option ℚ) (token : Token)
    (amount : ℚ) : Option ℚ :=
  (externalPrices token).map (fun price => price * amount)

/-- `order_native_full_fee_amount`: convert an order's full fee into native
units (sell-token price lookup, exact multiplication, then narrowing to `f64`,
the narrowing being the abstract `toF64`). `none` models the `Err` cases
(missing external price, or rational not representable as a float). -/
def order_native_full_fee_amount (externalPrices : Token → Option ℚ)
    (toF64 : ℚ → Option ℚ) (order : Order) : Option ℚ :=
  match try_get_native_amount externalPrices order.creation.sellToken
      (u256_to_big_rational order.creation.feeAmount) with
  | none => none
  | some amount => toF64 amount

/-- `now.checked_sub_signed(chrono::Duration::from_std(min_age)?)`: the checked
subtraction producing `min_creation_time`, with the representable timestamp
range abstracted as the bounds `[minTs, maxTs]`. -/
def checked_min_creation_time (now minAge minTs maxTs : ℤ) : Option ℤ :=
  let t := now - minAge
  if minTs ≤ t ∧ t ≤ maxTs then some t else none

/-- The closure passed to `orders.retain(..)` in
`filter_orders_with_insufficient_fees`: a failed fee conversion drops the
order; an order created at or after `min_creation_time` is kept; otherwise the
order is kept iff its native full fee reaches the minimum. -/
def order_retain (externalPrices : Token → Option ℚ) (toF64 : ℚ → Option ℚ)
    (minCreationTime : ℤ) (minNativeFullFee : ℚ) (order : Order) : Bool :=
  match order_native_full_fee_amount externalPrices toF64 order with
  | none => false
  | some nativeFullFee =>
    if minCreationTime ≤ order.metadata.creationDate then
      true
    else
      decide (minNativeFullFee ≤ nativeFullFee)

/-- `filter_orders_with_insufficient_fees`: estimate the gas price (a failure
is a hard error), derive the minimum native fee `effective_gas_price /
max_gas_surcharge_factor` and the minimum creation time, then retain orders in
place. The returned pair is (call result, final state of the `&mut Vec`). -/
def filter_orders_with_insufficient_fees (externalPrices : Token → Option ℚ)
    (toF64 : ℚ → Option ℚ) (gasEstimate : Option ℚ)
    (maxGasSurchargeFactor : ℚ) (now minAge minTs maxTs : ℤ)
    (orders : List Order) : Except String Unit × List Order :=
  match gasEstimate with
  | none => (.error "failed to estimate gas price for solving", orders)
  | some effectiveGasPrice =>
    let minNativeFullFee := effectiveGasPrice / maxGasSurchargeFactor
    match checked_min_creation_time now minAge minTs maxTs with
    | none => (.error "overflowed min order surcharge filtering age", orders)
    | some minCreationTime =>
      (.ok (),
        orders.filter
          (order_retain externalPrices toF64 minCreationTime minNativeFullFee))

/-! ## Liquidity and passthrough limit orders (`crate::liquidity`)

The liquidity types are declared outside the included sources; the spec
describes them as a closed sum over pool kinds plus passthrough limit order,
and the fields below follow their use in `http_solver.rs`. -/

inductive OrderKind
  | buy
  | sell
  deriving DecidableEq, Repr

inductive Exchange
  | gnosisProtocol
  | zeroEx
  deriving DecidableEq, Repr

structure LimitOrder where
  id : String
  sellToken : Token
  buyToken : Token
  sellAmount : Nat
  buyAmount : Nat
  kind : OrderKind
  partiallyFillable : Bool
  scaledUnsubsidizedFee : Nat
  unscaledSubsidizedFee : Nat
  isLiquidityOrder : Bool
  exchange : Exchange
  deriving DecidableEq, Repr

structure ConstantProductOrder where
  token0 : Token
  token1 : Token
  reserve0 : Nat
  reserve1 : Nat
  fee : ℚ
  deriving DecidableEq, Repr

structure WeightedPoolTokenState where
  balance : Nat
  weight : ℚ
  deriving DecidableEq, Repr

structure StablePoolTokenState where
  balance : Nat
  scalingExponent : Nat
  deriving DecidableEq, Repr

structure WeightedProductOrder where
  reserves : List (Token × WeightedPoolTokenState)
  fee : ℚ
  deriving DecidableEq, Repr

structure StablePoolOrder where
  reserves : List (Token × StablePoolTokenState)
  amplificationParameter : ℚ
  fee : ℚ
  deriving DecidableEq, Repr

inductive Liquidity
  | constantProduct (amm : ConstantProductOrder)
  | balancerWeighted (amm : WeightedProductOrder)
  | balancerStable (amm : StablePoolOrder)
  | limitOrder (order : LimitOrder)
  deriving DecidableEq, Repr

/-- All unordered pairs of entries of a token list. -/
def tokenPairsOf : List Token → List (Token × Token)
  | [] => []
  | t :: rest => rest.map (fun u => (t, u)) ++ tokenPairsOf rest

/-- Modelled from the spec: `Liquidity::all_token_pairs` is not under `src/`;
per the spec, pools contribute the unordered token pairs they touch, and
passthrough limit orders contribute no pairs (they provide no pricing
connectivity). -/
def Liquidity.all_token_pairs : Liquidity → List (Token × Token)
  | .constantProduct amm => [(amm.token0, amm.token1)]
  | .balancerWeighted amm => tokenPairsOf (amm.reserves.map Prod.fst)
  | .balancerStable amm => tokenPairsOf (amm.reserves.map Prod.fst)
  | .limitOrder _ => []

/-! ## Token Graph Reachability (`compute_fee_connected_tokens`) -/

/-- `HashSet::insert` on the connected token set (membership view). -/
def insertTok (t : Token) (s : List Token) : List Token :=
  if t ∈ s then s else t :: s

/-- One `pairs.retain(..)` pass of `compute_fee_connected_tokens`: scan the
pairs in order against the growing connected set; a pair with an endpoint
already connected contributes its other endpoint and is removed from further
consideration. Returns the grown set, the kept pairs, and the `added_token`
flag of the pass. -/
def passOnce : List Token → List (Token × Token) → List Token × List (Token × Token) × Bool
  | conn, [] => (conn, [], false)
  | conn, p :: rest =>
    if p.1 ∈ conn then
      let res := passOnce (insertTok p.2 conn) rest
      (res.1, res.2.1, true)
    else if p.2 ∈ conn then
      let res := passOnce (insertTok p.1 conn) rest
      (res.1, res.2.1, true)
    else
      let res := passOnce conn rest
      (res.1, p :: res.2.1, res.2.2)

theorem passOnce_remaining_length_le :
    ∀ (conn : List Token) (pairs : List (Token × Token)),
      (passOnce conn pairs).2.1.length ≤ pairs.length
  | _, [] => by simp [passOnce]
  | conn, p :: rest => by
    simp only [passOnce]
    split
    · exact Nat.le_succ_of_le (passOnce_remaining_length_le _ rest)
    · split
      · exact Nat.le_succ_of_le (passOnce_remaining_length_le _ rest)
      · simpa using passOnce_remaining_length_le conn rest

theorem passOnce_remaining_length_lt :
    ∀ (conn : List Token) (pairs : List (Token × Token)),
      (passOnce conn pairs).2.2 = true →
      (passOnce conn pairs).2.1.length < pairs.length
  | _, [], h => by simp [passOnce] at h
  | conn, p :: rest, h => by
    by_cases h1 : p.1 ∈ conn
    · simp only [passOnce, if_pos h1]
      exact Nat.lt_succ_of_le (passOnce_remaining_length_le _ rest)
    · by_cases h2 : p.2 ∈ conn
      · simp only [passOnce, if_neg h1, if_pos h2]
        exact Nat.lt_succ_of_le (passOnce_remaining_length_le _ rest)
      · simp only [passOnce, if_neg h1, if_neg h2] at h ⊢
        simpa using passOnce_remaining_length_lt conn rest (by simpa using h)

/-- The `loop` of `compute_fee_connected_tokens`, with an explicit fuel
parameter to make the recursion structural (each continuing pass removes at
least one pair, so `pairs.length + 1` units of fuel always reach the loop's
own exit condition; `closureLoopAux_fuel_irrelevant` shows the result does
not depend on the fuel beyond that bound): run retain passes until no pairs
remain or a pass adds no token. -/
def closureLoopAux : Nat → List Token → List (Token × Token) → List Token
  | 0, conn, _ => conn
  | fuel + 1, conn, pairs =>
    if (passOnce conn pairs).2.1.isEmpty = true ∨ (passOnce conn pairs).2.2 = false then
      (passOnce conn pairs).1
    else
      closureLoopAux fuel (passOnce conn pairs).1 (passOnce conn pairs).2.1

def closureLoop (conn : List Token) (pairs : List (Token × Token)) : List Token :=
  closureLoopAux (pairs.length + 1) conn pairs

theorem closureLoopAux_fuel_irrelevant :
    ∀ (f g : Nat) (conn : List Token) (pairs : List (Token × Token)),
      pairs.length < f → pairs.length < g →
      closureLoopAux f conn pairs = closureLoopAux g conn pairs
  | 0, _, _, _, hf, _ => absurd hf (Nat.not_lt_zero _)
  | _, 0, _, _, _, hg => absurd hg (Nat.not_lt_zero _)
  | f + 1, g + 1, conn, pairs, hf, hg => by
    simp only [closureLoopAux]
    by_cases hcond : (passOnce conn pairs).2.1.isEmpty = true ∨
        (passOnce conn pairs).2.2 = false
    · rw [if_pos hcond, if_pos hcond]
    · rw [if_neg hcond, if_neg hcond]
      push_neg at hcond
      have hlt : (passOnce conn pairs).2.1.length < pairs.length :=
        passOnce_remaining_length_lt conn pairs (by simpa using hcond.2)
      exact closureLoopAux_fuel_irrelevant f g _ _
        (Nat.lt_of_lt_of_le hlt (Nat.lt_succ_iff.mp hf))
        (Nat.lt_of_lt_of_le hlt (Nat.lt_succ_iff.mp hg))

/-- `compute_fee_connected_tokens`: seed the connected set with the native
token and run the closure loop over all pool token pairs. (The Rust code
collects the pairs into a `HashSet` first; the model keeps the list — the
resulting set is proved independent of duplication and scan order of the pair
list.) -/
def compute_fee_connected_tokens (liquidity : List Liquidity)
    (nativeToken : Token) : List Token :=
  closureLoop [nativeToken] (liquidity.flatMap Liquidity.all_token_pairs)

/-- Declarative transitive connectivity: `t` is reachable from `root` through
the unordered pair edges of `pairs`. -/
inductive Connected (pairs : List (Token × Token)) (root : Token) : Token → Prop
  | refl : Connected pairs root root
  | step {a b : Token} : Connected pairs root a →
      ((a, b) ∈ pairs ∨ (b, a) ∈ pairs) → Connected pairs root b

/-! ### Closure correctness lemmas -/

theorem mem_insertTok {t u : Token} {s : List Token} :
    u ∈ insertTok t s ↔ u = t ∨ u ∈ s := by
  unfold insertTok
  split
  · rename_i ht
    refine ⟨Or.inr, ?_⟩
    rintro (rfl | h)
    · exact ht
    · exact h
  · simp [List.mem_cons]

theorem subset_insertTok (t : Token) (s : List Token) : s ⊆ insertTok t s :=
  fun _ hx => mem_insertTok.mpr (Or.inr hx)

theorem self_mem_insertTok (t : Token) (s : List Token) : t ∈ insertTok t s :=
  mem_insertTok.mpr (Or.inl rfl)

theorem passOnce_conn_subset :
    ∀ (conn : List Token) (pairs : List (Token × Token)),
      conn ⊆ (passOnce conn pairs).1
  | _, [] => by simp [passOnce]
  | conn, p :: rest => by
    by_cases h1 : p.1 ∈ conn
    · simp only [passOnce, if_pos h1]
      exact (subset_insertTok p.2 conn).trans (passOnce_conn_subset _ rest)
    · by_cases h2 : p.2 ∈ conn
      · simp only [passOnce, if_neg h1, if_pos h2]
        exact (subset_insertTok p.1 conn).trans (passOnce_conn_subset _ rest)
      · simp only [passOnce, if_neg h1, if_neg h2]
        exact passOnce_conn_subset conn rest

theorem passOnce_sound (pairs0 : List (Token × Token)) (root : Token) :
    ∀ (conn : List Token) (pairs : List (Token × Token)),
      (∀ p ∈ pairs, p ∈ pairs0) →
      (∀ c ∈ conn, Connected pairs0 root c) →
      ∀ t ∈ (passOnce conn pairs).1, Connected pairs0 root t
  | conn, [], _, hconn => by simpa [passOnce] using hconn
  | conn, p :: rest, hp, hconn => by
    have hp0 : p ∈ pairs0 := hp p (List.mem_cons_self p rest)
    have hrest : ∀ q ∈ rest, q ∈ pairs0 := fun q hq => hp q (List.mem_cons_of_mem p hq)
    by_cases h1 : p.1 ∈ conn
    · simp only [passOnce, if_pos h1]
      refine passOnce_sound pairs0 root _ rest hrest ?_
      intro c hc
      rcases mem_insertTok.mp hc with rfl | hc
      · exact Connected.step (hconn p.1 h1) (Or.inl hp0)
      · exact hconn c hc
    · by_cases h2 : p.2 ∈ conn
      · simp only [passOnce, if_neg h1, if_pos h2]
        refine passOnce_sound pairs0 root _ rest hrest ?_
        intro c hc
        rcases mem_insertTok.mp hc with rfl | hc
        · exact Connected.step (hconn p.2 h2) (Or.inr hp0)
        · exact hconn c hc
      · simp only [passOnce, if_neg h1, if_neg h2]
        exact passOnce_sound pairs0 root conn rest hrest hconn

theorem passOnce_processed :
    ∀ (conn : List Token) (pairs : List (Token × Token)),
      ∀ p ∈ pairs, p ∈ (passOnce conn pairs).2.1 ∨
        (p.1 ∈ (passOnce conn pairs).1 ∧ p.2 ∈ (passOnce conn pairs).1)
  | _, [], p, hp => by simp at hp
  | conn, q :: rest, p, hp => by
    by_cases h1 : q.1 ∈ conn
    · simp only [passOnce, if_pos h1]
      rcases List.mem_cons.mp hp with rfl | hp
      · refine Or.inr ⟨?_, ?_⟩
        · exact passOnce_conn_subset _ rest (subset_insertTok p.2 conn h1)
        · exact passOnce_conn_subset _ rest (self_mem_insertTok p.2 conn)
      · exact passOnce_processed _ rest p hp
    · by_cases h2 : q.2 ∈ conn
      · simp only [passOnce, if_neg h1, if_pos h2]
        rcases List.mem_cons.mp hp with rfl | hp
        · refine Or.inr ⟨?_, ?_⟩
          · exact passOnce_conn_subset _ rest (self_mem_insertTok p.1 conn)
          · exact passOnce_conn_subset _ rest (subset_insertTok p.1 conn h2)
        · exact passOnce_processed _ rest p hp
      · simp only [passOnce, if_neg h1, if_neg h2]
        rcases List.mem_cons.mp hp with rfl | hp
        · exact Or.inl (List.mem_cons_self p _)
        · rcases passOnce_processed conn rest p hp with h | h
          · exact Or.inl (List.mem_cons_of_mem q h)
          · exact Or.inr h

theorem passOnce_remaining_subset :
    ∀ (conn : List Token) (pairs : List (Token × Token)),
      (passOnce conn pairs).2.1 ⊆ pairs
  | _, [] => by simp [passOnce]
  | conn, p :: rest => by
    by_cases h1 : p.1 ∈ conn
    · simp only [passOnce, if_neg, if_pos h1]
      exact (passOnce_remaining_subset _ rest).trans (List.subset_cons_self p rest)
    · by_cases h2 : p.2 ∈ conn
      · simp only [passOnce, if_neg h1, if_pos h2]
        exact (passOnce_remaining_subset _ rest).trans (List.subset_cons_self p rest)
      · simp only [passOnce, if_neg h1, if_neg h2]
        exact List.cons_subset_cons p (passOnce_remaining_subset conn rest)

theorem passOnce_noadd :
    ∀ (conn : List Token) (pairs : List (Token × Token)),
      (passOnce conn pairs).2.2 = false →
      (passOnce conn pairs).1 = conn ∧ ∀ p ∈ pairs, p.1 ∉ conn ∧ p.2 ∉ conn
  | _, [], _ => by simp [passOnce]
  | conn, p :: rest, h => by
    by_cases h1 : p.1 ∈ conn
    · simp only [passOnce, if_pos h1] at h
      exact Bool.noConfusion h
    · by_cases h2 : p.2 ∈ conn
      · simp only [passOnce, if_neg h1, if_pos h2] at h
        exact Bool.noConfusion h
      · simp only [passOnce, if_neg h1, if_neg h2] at h ⊢
        obtain ⟨hc, hrest⟩ := passOnce_noadd conn rest h
        refine ⟨hc, ?_⟩
        intro q hq
        rcases List.mem_cons.mp hq with rfl | hq
        · exact ⟨h1, h2⟩
        · exact hrest q hq

theorem closureLoop_spec (pairs0 : List (Token × Token)) (root : Token) :
    ∀ (fuel : Nat) (conn : List Token) (pairs : List (Token × Token)),
      pairs.length < fuel → root ∈ conn →
      (∀ c ∈ conn, Connected pairs0 root c) →
      (∀ p ∈ pairs, p ∈ pairs0) →
      (∀ p ∈ pairs0, p ∈ pairs ∨ (p.1 ∈ conn ∧ p.2 ∈ conn)) →
      conn ⊆ closureLoopAux fuel conn pairs ∧
      (∀ t ∈ closureLoopAux fuel conn pairs, Connected pairs0 root t) ∧
      (∀ p ∈ pairs0,
        (p.1 ∈ closureLoopAux fuel conn pairs → p.2 ∈ closureLoopAux fuel conn pairs) ∧
        (p.2 ∈ closureLoopAux fuel conn pairs → p.1 ∈ closureLoopAux fuel conn pairs)) := by
  intro fuel
  induction fuel with
  | zero =>
    intro conn pairs hlen hroot hconn hsub hproc
    exact absurd hlen (Nat.not_lt_zero _)
  | succ m ih =>
    intro conn pairs hlen hroot hconn hsub hproc
    rw [closureLoopAux]
    by_cases hcond : (passOnce conn pairs).2.1.isEmpty = true ∨
        (passOnce conn pairs).2.2 = false
    · rw [if_pos hcond]
      refine ⟨passOnce_conn_subset conn pairs, passOnce_sound pairs0 root conn pairs hsub hconn, ?_⟩
      intro p hp
      rcases hproc p hp with hin | hboth
      · rcases passOnce_processed conn pairs p hin with hrem | hboth'
        · rcases hcond with hemp | hnoadd
          · rw [List.isEmpty_iff] at hemp
            rw [hemp] at hrem
            simp at hrem
          · obtain ⟨hceq, hmiss⟩ := passOnce_noadd conn pairs hnoadd
            rw [hceq]
            exact ⟨fun hx => absurd hx (hmiss p hin).1, fun hx => absurd hx (hmiss p hin).2⟩
        · exact ⟨fun _ => hboth'.2, fun _ => hboth'.1⟩
      · have h1 := passOnce_conn_subset conn pairs hboth.1
        have h2 := passOnce_conn_subset conn pairs hboth.2
        exact ⟨fun _ => h2, fun _ => h1⟩
    · rw [if_neg hcond]
      push_neg at hcond
      have hadd : (passOnce conn pairs).2.2 = true := by
        simpa using hcond.2
      have hlt : (passOnce conn pairs).2.1.length < pairs.length :=
        passOnce_remaining_length_lt conn pairs hadd
      have hlen' : (passOnce conn pairs).2.1.length < m :=
        Nat.lt_of_lt_of_le hlt (Nat.lt_succ_iff.mp hlen)
      have hroot' : root ∈ (passOnce conn pairs).1 := passOnce_conn_subset conn pairs hroot
      have hconn' := passOnce_sound pairs0 root conn pairs hsub hconn
      have hsub' : ∀ p ∈ (passOnce conn pairs).2.1, p ∈ pairs0 :=
        fun p hp => hsub p (passOnce_remaining_subset conn pairs hp)
      have hproc' : ∀ p ∈ pairs0, p ∈ (passOnce conn pairs).2.1 ∨
          (p.1 ∈ (passOnce conn pairs).1 ∧ p.2 ∈ (passOnce conn pairs).1) := by
        intro p hp
        rcases hproc p hp with hin | hboth
        · exact passOnce_processed conn pairs p hin
        · exact Or.inr ⟨passOnce_conn_subset conn pairs hboth.1,
            passOnce_conn_subset conn pairs hboth.2⟩
      obtain ⟨hs, hv, hc⟩ := ih (passOnce conn pairs).1 (passOnce conn pairs).2.1
        hlen' hroot' hconn' hsub' hproc'
      exact ⟨(passOnce_conn_subset conn pairs).trans hs, hv, hc⟩

theorem mem_closureLoop_iff_connected (pairs : List (Token × Token))
    (root : Token) (t : Token) :
    t ∈ closureLoop [root] pairs ↔ Connected pairs root t := by
  obtain ⟨hsub, hsound, hclose⟩ := closureLoop_spec pairs root (pairs.length + 1) [root] pairs
    (Nat.lt_succ_self _) (List.mem_singleton.mpr rfl)
    (by
      intro c hc
      rw [List.mem_singleton] at hc
      subst hc
      exact Connected.refl)
    (fun p hp => hp) (fun p hp => Or.inl hp)
  constructor
  · exact hsound t
  · intro hconn
    induction hconn with
    | refl => exact hsub (List.mem_singleton.mpr rfl)
    | step _ hedge ih =>
      rcases hedge with he | he
      · exact (hclose _ he).1 ih
      · exact (hclose _ he).2 ih

theorem connected_congr {pairsA pairsB : List (Token × Token)}
    (h : ∀ p, p ∈ pairsA ↔ p ∈ pairsB) {root t : Token} :
    Connected pairsA root t → Connected pairsB root t := by
  intro hc
  induction hc with
  | refl => exact Connected.refl
  | step _ hedge ih =>
    refine Connected.step ih ?_
    rcases hedge with he | he
    · exact Or.inl ((h _).mp he)
    · exact Or.inr ((h _).mp he)

/-! ## Model Compiler (`http_solver.rs`)

The engine-facing model types live in `shared::http_solver::model` (outside
the included sources); their fields follow their construction in
`http_solver.rs`. -/

structure FeeModel where
  amount : Nat
  token : Token
  deriving DecidableEq, Repr

structure CostModel where
  amount : ℚ
  token : Token
  deriving DecidableEq, Repr

/-- `shared::http_solver::gas_model::GasModel` (outside the included
sources). -/
structure GasModel where
  nativeToken : Token
  gasPrice : ℚ
  deriving DecidableEq, Repr

/-- Modelled from the spec: the per-category execution costs derived by the
gas model are fixed gas units times the gas price, denominated in the native
token. The gas-unit constants are outside the included sources and no claim
inspects their values. -/
def gpOrderGas : ℚ := 1
def zeroexOrderGas : ℚ := 2
def uniswapGas : ℚ := 3
def balancerGas : ℚ := 4

def GasModel.gp_order_cost (gm : GasModel) : CostModel :=
  { amount := gpOrderGas * gm.gasPrice, token := gm.nativeToken }

def GasModel.zeroex_order_cost (gm : GasModel) : CostModel :=
  { amount := zeroexOrderGas * gm.gasPrice, token := gm.nativeToken }

def GasModel.uniswap_cost (gm : GasModel) : CostModel :=
  { amount := uniswapGas * gm.gasPrice, token := gm.nativeToken }

def GasModel.balancer_cost (gm : GasModel) : CostModel :=
  { amount := balancerGas * gm.gasPrice, token := gm.nativeToken }

/-- `order_fee`: liquidity orders use the unscaled subsidized fee, user orders
the scaled unsubsidized fee; the fee token is the sell token. -/
def order_fee (order : LimitOrder) : FeeModel :=
  { amount :=
      match order.isLiquidityOrder with
      | true => order.unscaledSubsidizedFee
      | false => order.scaledUnsubsidizedFee
    token := order.sellToken }

structure OrderModel where
  sellToken : Token
  buyToken : Token
  sellAmount : Nat
  buyAmount : Nat
  allowPartialFill : Bool
  isSellOrder : Bool
  fee : FeeModel
  cost : CostModel
  isLiquidityOrder : Bool
  mandatory : Bool
  hasAtomicExecution : Bool
  deriving DecidableEq, Repr

/-- The `OrderModel` built for one retained order in `order_models`. -/
def limitOrderToModel (gasModel : GasModel) (order : LimitOrder) : OrderModel :=
  { sellToken := order.sellToken
    buyToken := order.buyToken
    sellAmount := order.sellAmount
    buyAmount := order.buyAmount
    allowPartialFill := order.partiallyFillable
    isSellOrder := decide (order.kind = OrderKind.sell)
    fee := order_fee order
    cost :=
      match order.exchange with
      | Exchange.gnosisProtocol => gasModel.gp_order_cost
      | Exchange.zeroEx => gasModel.zeroex_order_cost
    isLiquidityOrder := order.isLiquidityOrder
    mandatory := false
    hasAtomicExecution := !decide (order.exchange = Exchange.gnosisProtocol) }

/-- `order_models`: enumerate the orders by position, drop every order neither
of whose tokens is fee-connected, and key the compiled entries by the original
position (the `BTreeMap<usize, OrderModel>` is represented as the association
list of its entries). -/
def order_models (orders : List LimitOrder) (feeConnectedTokens : List Token)
    (gasModel : GasModel) : List (Nat × OrderModel) :=
  orders.enum.filterMap fun io =>
    if io.2.sellToken ∈ feeConnectedTokens ∨ io.2.buyToken ∈ feeConnectedTokens then
      some (io.1, limitOrderToModel gasModel io.2)
    else none

/-- A classified `f64` value: finite values carry the rational they denote. -/
inductive F64
  | finite (val : ℚ)
  | nonFinite
  deriving DecidableEq, Repr

/-- `shared::token_info::TokenInfo` (outside the included sources; fields per
their use in `token_models`). -/
structure TokenInfo where
  decimals : Option Nat
  symbol : Option String
  deriving DecidableEq, Repr

structure TokenInfoModel where
  decimals : Option Nat
  aliasName : Option String
  externalPrice : Option ℚ
  normalizePriority : Option Nat
  internalBuffer : Option Nat
  deriving DecidableEq, Repr

/-- Association-list lookup, standing for `HashMap::get`. -/
def lookupTok {α : Type} (t : Token) : List (Token × α) → Option α
  | [] => none
  | kv :: rest => if kv.1 = t then some kv.2 else lookupTok t rest

/-- `token_models`: one entry per token of the token-info response; a
non-finite external price becomes `none`; the native token gets normalize
priority 1, all others 0; the internal buffer is looked up best-effort. -/
def token_models (tokenInfos : List (Token × TokenInfo))
    (priceEstimates : List (Token × F64)) (buffers : List (Token × Nat))
    (gasModel : GasModel) : List (Token × TokenInfoModel) :=
  tokenInfos.map fun ai =>
    (ai.1,
      { decimals := ai.2.decimals
        aliasName := ai.2.symbol
        externalPrice :=
          match lookupTok ai.1 priceEstimates with
          | some (F64.finite price) => some price
          | _ => none
        normalizePriority := some (if gasModel.nativeToken = ai.1 then 1 else 0)
        internalBuffer := lookupTok ai.1 buffers })

/-- `ethcontract::errors::ExecutionError`, as classified by
`is_transaction_failure`. -/
inductive ExecutionError
  | failure
  | revert
  | invalidOpcode
  | otherExecution
  deriving DecidableEq, Repr

/-- `is_transaction_failure`: the transaction reverted for some reason. -/
def is_transaction_failure : ExecutionError → Bool
  | ExecutionError.failure => true
  | ExecutionError.revert => true
  | ExecutionError.invalidOpcode => true
  | ExecutionError.otherExecution => false

inductive BufferRetrievalError
  | erc20 (inner : ExecutionError)
  | otherBuffer (msg : String)
  deriving DecidableEq, Repr

/-- The buffer post-processing in `prepare_model`: a per-token transient
transaction failure is silently dropped, any other per-token failure is
logged and dropped; successes are kept. -/
def filterBuffers (buffersResult : List (Token × Except BufferRetrievalError Nat)) :
    List (Token × Nat) :=
  buffersResult.filterMap fun tb =>
    match tb.2 with
    | Except.error (BufferRetrievalError.erc20 err) =>
      if is_transaction_failure err then
        none
      else
        none
    | Except.error (BufferRetrievalError.otherBuffer _) => none
    | Except.ok b => some (tb.1, b)

/-- `map_tokens_for_solver`: union of every token referenced by any order and
any liquidity entry. (The Rust code accumulates a `HashSet`; the model keeps
first-occurrence order, deduplicated.) -/
def map_tokens_for_solver (orders : List LimitOrder) (liquidity : List Liquidity) :
    List Token :=
  (orders.flatMap (fun o => [o.sellToken, o.buyToken]) ++
    liquidity.flatMap fun l =>
      match l with
      | Liquidity.constantProduct amm => [amm.token0, amm.token1]
      | Liquidity.balancerWeighted amm => amm.reserves.map Prod.fst
      | Liquidity.balancerStable amm => amm.reserves.map Prod.fst
      | Liquidity.limitOrder o => [o.sellToken, o.buyToken]).dedup

structure WeightedPoolTokenData where
  balance : Nat
  weight : ℚ
  deriving DecidableEq, Repr

inductive AmmParameters
  | constantProduct (reserves : List (Token × Nat))
  | weightedProduct (reserves : List (Token × WeightedPoolTokenData))
  | stable (reserves : List (Token × Nat)) (scalingRates : List (Token × Nat))
      (amplificationParameter : ℚ)
  deriving DecidableEq, Repr

structure AmmModel where
  parameters : AmmParameters
  fee : ℚ
  cost : CostModel
  mandatory : Bool
  deriving DecidableEq, Repr

/-- Modelled from the spec:
`shared::sources::balancer_v2::pools::common::compute_scaling_rate` is not
under `src/`; per the spec it is a pure function of the stored scaling
exponent whose derivation may fail. -/
def compute_scaling_rate (scalingExponent : Nat) : Except String Nat :=
  if scalingExponent ≤ 18 then Except.ok (10 ^ (18 - scalingExponent))
  else Except.error "unsupported scaling exponent"

def Liquidity.isLimitOrder : Liquidity → Bool
  | Liquidity.limitOrder _ => true
  | _ => false

/-- The conversion closure mapped over each non-passthrough liquidity entry
in `amm_models`. -/
def liquidityToAmmModel (gasModel : GasModel) : Liquidity → Except String AmmModel
  | Liquidity.constantProduct amm =>
    Except.ok
      { parameters := AmmParameters.constantProduct
          [(amm.token0, amm.reserve0), (amm.token1, amm.reserve1)]
        fee := amm.fee
        cost := gasModel.uniswap_cost
        mandatory := false }
  | Liquidity.balancerWeighted amm =>
    Except.ok
      { parameters := AmmParameters.weightedProduct
          (amm.reserves.map fun ts =>
            (ts.1, { balance := ts.2.balance, weight := ts.2.weight }))
        fee := amm.fee
        cost := gasModel.balancer_cost
        mandatory := false }
  | Liquidity.balancerStable amm =>
    match amm.reserves.mapM
        (fun ts : Token × StablePoolTokenState =>
          (compute_scaling_rate ts.2.scalingExponent).map (fun r => (ts.1, r))) with
    | Except.ok rates =>
      Except.ok
        { parameters := AmmParameters.stable
            (amm.reserves.map fun ts => (ts.1, ts.2.balance)) rates
            amm.amplificationParameter
          fee := amm.fee
          cost := gasModel.balancer_cost
          mandatory := false }
    | Except.error e => Except.error e
  | Liquidity.limitOrder _ =>
    Except.error "unreachable: filtered out before"

/-- `amm_models`: passthrough limit orders are excluded, the remaining pools
are converted to variant-tagged parameter blocks and enumerated by position
among the non-passthrough entries; a per-pool conversion failure (stable
scaling rate) is dropped, leaving a gap at its index. -/
def amm_models (liquidity : List Liquidity) (gasModel : GasModel) :
    List (Nat × AmmModel) :=
  (((liquidity.filter fun l => !l.isLimitOrder).map
      (liquidityToAmmModel gasModel)).enum.filterMap
    fun ir =>
      match ir.2 with
      | Except.ok value => some (ir.1, value)
      | Except.error _ => none)

structure MetadataModel where
  environment : Option String
  auctionId : Option Nat
  gasPrice : Option ℚ
  nativeToken : Option Token
  deriving DecidableEq, Repr

structure BatchAuctionModel where
  tokens : List (Token × TokenInfoModel)
  orders : List (Nat × OrderModel)
  amms : List (Nat × AmmModel)
  metadata : Option MetadataModel
  deriving DecidableEq, Repr

/-- The post-filter (orders, liquidity) pair needed to turn a solved model
back into a settlement. -/
structure SettlementContext where
  orders : List LimitOrder
  liquidity : List Liquidity
  deriving DecidableEq, Repr

/-- `HttpSolver::prepare_model`. The responses of the external collaborators
(`get_token_infos` and `get_buffers` for the token set
`map_tokens_for_solver orders liquidity`, and the projected external prices
`into_http_solver_prices`) are inputs of the model; the two fetches are
concurrent independent I/O in the source and join before model construction,
so their results are plain inputs here. -/
def prepare_model (networkName : String) (nativeToken : Token)
    (tokenInfos : List (Token × TokenInfo))
    (buffersResult : List (Token × Except BufferRetrievalError Nat))
    (priceEstimates : List (Token × F64)) (auctionId : Nat)
    (orders : List LimitOrder) (liquidity : List Liquidity) (gasPrice : ℚ) :
    BatchAuctionModel × SettlementContext :=
  let buffers := filterBuffers buffersResult
  let feeConnectedTokens := compute_fee_connected_tokens liquidity nativeToken
  let gasModel : GasModel := { nativeToken := nativeToken, gasPrice := gasPrice }
  ({ tokens := token_models tokenInfos priceEstimates buffers gasModel
     orders := order_models orders feeConnectedTokens gasModel
     amms := amm_models liquidity gasModel
     metadata := some
       { environment := some networkName
         auctionId := some auctionId
         gasPrice := some gasPrice
         nativeToken := some nativeToken } },
   { orders := orders, liquidity := liquidity })

/-! ## Instance Cache and Solve Orchestrator (`http_solver.rs`) -/

/-- `InstanceData`: the single cache slot's content. -/
structure InstanceData where
  solveId : Nat
  model : BatchAuctionModel
  context : SettlementContext
  deriving DecidableEq, Repr

/-- The critical section of `HttpSolver::solve`, executed with the
`instance_cache` mutex guard held (the guard spans the cache check through the
write): on a hit for the same solve id, return the cached model and context
without compiling; otherwise compile fresh and replace the slot wholesale.
Returns (returned model and context, slot content afterwards, whether
`prepare_model` ran). -/
def solveCacheStep (guard : Option InstanceData) (id : Nat)
    (fresh : BatchAuctionModel × SettlementContext) :
    (BatchAuctionModel × SettlementContext) × Option InstanceData × Bool :=
  match guard with
  | some data =>
    if data.solveId = id then
      ((data.model, data.context), some data, false)
    else
      (fresh, some { solveId := id, model := fresh.1, context := fresh.2 }, true)
  | none =>
    (fresh, some { solveId := id, model := fresh.1, context := fresh.2 }, true)

/-- `Instant::checked_duration_since`: `some (deadline - now)` when `now ≤
deadline` (a zero remaining budget included), `none` when the deadline is
already in the past. -/
def checked_duration_since (deadline now : ℤ) : Option ℤ :=
  if now ≤ deadline then some (deadline - now) else none

/-- The fields of `SettledBatchAuctionModel` observed by `solve`. -/
structure SettledBatchAuctionModel where
  hasExecutionPlan : Bool
  deriving DecidableEq, Repr

/-- An opaque settlement produced by the settlement-conversion collaborator. -/
structure Settlement where
  tag : Nat
  deriving DecidableEq, Repr

/-- Observable outcome of one `solve` call: its result, the cache slot
afterwards, whether `prepare_model` ran, and the time budget of every
invocation of the external engine. -/
structure SolveOutcome where
  result : Except String (List Settlement)
  cacheAfter : Option InstanceData
  compiled : Bool
  engineBudgets : List ℤ

/-- The tail of `HttpSolver::solve` once a remaining budget exists: invoke
the external engine with the compiled model and the budget; an engine failure
propagates; a solution without an execution plan is a normal empty result;
otherwise the settlement conversion's outcome is returned. -/
def invokeEngine (engine : BatchAuctionModel → ℤ → Except String SettledBatchAuctionModel)
    (convert : SettledBatchAuctionModel → SettlementContext → Except String Settlement)
    (modelContext : BatchAuctionModel × SettlementContext)
    (cacheAfter : Option InstanceData) (compiled : Bool) (timeout : ℤ) :
    SolveOutcome :=
  match engine modelContext.1 timeout with
  | Except.error e =>
    { result := Except.error e, cacheAfter := cacheAfter,
      compiled := compiled, engineBudgets := [timeout] }
  | Except.ok settled =>
    if !settled.hasExecutionPlan then
      { result := Except.ok [], cacheAfter := cacheAfter,
        compiled := compiled, engineBudgets := [timeout] }
    else
      match convert settled modelContext.2 with
      | Except.ok settlement =>
        { result := Except.ok [settlement], cacheAfter := cacheAfter,
          compiled := compiled, engineBudgets := [timeout] }
      | Except.error e =>
        { result := Except.error e, cacheAfter := cacheAfter,
          compiled := compiled, engineBudgets := [timeout] }

/-- `HttpSolver::solve`: empty order list short-circuits; passthrough limit
orders from the liquidity are appended to the order list; model and context
come from the cache critical section; the remaining budget is computed from
the deadline (already-passed deadlines fail before any engine call); the
engine and the settlement conversion are abstract collaborator parameters.
(`fresh` is evaluated lazily in the source, only on a cache miss; the
`compiled` flag records whether `prepare_model` ran.) -/
def solve (engine : BatchAuctionModel → ℤ → Except String SettledBatchAuctionModel)
    (convert : SettledBatchAuctionModel → SettlementContext → Except String Settlement)
    (networkName : String) (nativeToken : Token)
    (tokenInfos : List (Token × TokenInfo))
    (buffersResult : List (Token × Except BufferRetrievalError Nat))
    (priceEstimates : List (Token × F64)) (cache : Option InstanceData)
    (id : Nat) (orders : List LimitOrder) (liquidity : List Liquidity)
    (gasPrice : ℚ) (deadline now : ℤ) : SolveOutcome :=
  if orders.isEmpty then
    { result := Except.ok [], cacheAfter := cache, compiled := false,
      engineBudgets := [] }
  else
    let allOrders := orders ++ liquidity.filterMap fun l =>
      match l with
      | Liquidity.limitOrder order => some order
      | _ => none
    let fresh := prepare_model networkName nativeToken tokenInfos buffersResult
      priceEstimates id allOrders liquidity gasPrice
    let step := solveCacheStep cache id fresh
    match checked_duration_since deadline now with
    | none =>
      { result := Except.error "no time left to send request",
        cacheAfter := step.2.1, compiled := step.2.2, engineBudgets := [] }
    | some timeout =>
      invokeEngine engine convert step.1 step.2.1 step.2.2 timeout

/-- Two solve calls whose cache critical sections are serialized by the
`instance_cache` mutex: the guard is held from the cache check through the
write, so the only possible interleavings of the two critical sections are
the two serial orders; `firstIsA` selects which call enters first. Returns
((call A's model and context, whether A compiled), (the same for B), final
slot content). -/
def runTwoSerialized (firstIsA : Bool) (cache : Option InstanceData)
    (idA idB : Nat) (freshA freshB : BatchAuctionModel × SettlementContext) :
    ((BatchAuctionModel × SettlementContext) × Bool) ×
      ((BatchAuctionModel × SettlementContext) × Bool) × Option InstanceData :=
  if firstIsA then
    let s1 := solveCacheStep cache idA freshA
    let s2 := solveCacheStep s1.2.1 idB freshB
    ((s1.1, s1.2.2), (s2.1, s2.2.2), s2.2.1)
  else
    let s1 := solveCacheStep cache idB freshB
    let s2 := solveCacheStep s1.2.1 idA freshA
    ((s2.1, s2.2.2), (s1.1, s1.2.2), s2.2.1)

/-! ## Claims about the Fee Viability Filter -/

/-- C1: for every successful invocation of the fee-viability filter (gas
estimate obtained, minimum creation time computed), the call succeeds, the
retained orders are an in-place, order-preserving subsequence of the input,
and an order created strictly before `now - min_age` is retained iff its fee
converts to native units and the converted amount is at least
`effective_gas_price / max_gas_surcharge_factor`; in particular an old order
whose fee fails to convert (missing sell-token price or unrepresentable
rational) is dropped while the call as a whole still succeeds. -/
theorem C1_old_orders_filtered_by_native_fee (externalPrices : Token → Option ℚ)
    (toF64 : ℚ → Option ℚ) (effectiveGasPrice maxGasSurchargeFactor : ℚ)
    (now minAge minTs maxTs minCreationTime : ℤ) (orders : List Order)
    (hmct : checked_min_creation_time now minAge minTs maxTs = some minCreationTime) :
    (filter_orders_with_insufficient_fees externalPrices toF64
        (some effectiveGasPrice) maxGasSurchargeFactor now minAge minTs maxTs
        orders).1 = Except.ok () ∧
    (filter_orders_with_insufficient_fees externalPrices toF64
        (some effectiveGasPrice) maxGasSurchargeFactor now minAge minTs maxTs
        orders).2.Sublist orders ∧
    (∀ o ∈ orders, o.metadata.creationDate < minCreationTime →
      (o ∈ (filter_orders_with_insufficient_fees externalPrices toF64
          (some effectiveGasPrice) maxGasSurchargeFactor now minAge minTs maxTs
          orders).2 ↔
        ∃ f, order_native_full_fee_amount externalPrices toF64 o = some f ∧
          effectiveGasPrice / maxGasSurchargeFactor ≤ f)) := by
  simp only [filter_orders_with_insufficient_fees, hmct]
  refine ⟨trivial, List.filter_sublist orders, ?_⟩
  intro o ho hold
  rw [List.mem_filter]
  cases hf : order_native_full_fee_amount externalPrices toF64 o with
  | none =>
    simp only [order_retain, hf]
    constructor
    · rintro ⟨-, h⟩
      exact Bool.noConfusion h
    · rintro ⟨f, hsome, -⟩
      exact Option.noConfusion hsome
  | some f =>
    have hage : ¬ minCreationTime ≤ o.metadata.creationDate := not_le.mpr hold
    simp only [order_retain, hf, if_neg hage]
    constructor
    · rintro ⟨-, h⟩
      exact ⟨f, rfl, of_decide_eq_true h⟩
    · rintro ⟨f', hsome, hle⟩
      obtain rfl : f = f' := Option.some.injEq f f' ▸ hsome
      exact ⟨ho, decide_eq_true hle⟩

/-- Concrete witness data shared by the fee-filter claims: every token priced
at 1, the `f64` narrowing always succeeding, and three orders (an old order
with a sufficient fee, an old order with an insufficient fee, a young
order). -/
def wPrices : Token → Option ℚ := fun _ => some 1

def wF64 : ℚ → Option ℚ := fun q => some q

def wOldKeep : Order :=
  { creation := { sellToken := 0, feeAmount := 3 }, metadata := { creationDate := 0 } }

def wOldDrop : Order :=
  { creation := { sellToken := 0, feeAmount := 1 }, metadata := { creationDate := 0 } }

def wYoung : Order :=
  { creation := { sellToken := 0, feeAmount := 1 }, metadata := { creationDate := 7 } }

theorem C1_old_orders_filtered_by_native_fee_witness :
    (filter_orders_with_insufficient_fees wPrices wF64 (some 4) 2 10 5 (-100)
        100 [wOldKeep, wOldDrop]).1 = Except.ok () ∧
    (filter_orders_with_insufficient_fees wPrices wF64 (some 4) 2 10 5 (-100)
        100 [wOldKeep, wOldDrop]).2.Sublist [wOldKeep, wOldDrop] ∧
    (∀ o ∈ [wOldKeep, wOldDrop], o.metadata.creationDate < 5 →
      (o ∈ (filter_orders_with_insufficient_fees wPrices wF64 (some 4) 2 10 5
          (-100) 100 [wOldKeep, wOldDrop]).2 ↔
        ∃ f, order_native_full_fee_amount wPrices wF64 o = some f ∧
          (4 : ℚ) / 2 ≤ f)) :=
  C1_old_orders_filtered_by_native_fee wPrices wF64 4 2 10 5 (-100) 100 5
    [wOldKeep, wOldDrop] (by decide)

/-- C2 counterexample: a successful filter invocation (gas estimate available,
minimum creation time 0) drops a young order (creation date 7 is at or after
`now - min_age = 0`) because its fee fails to convert (no external price for
its sell token) — the claim requires every young order to be retained
regardless of its fee, including such conversion failures. -/
theorem C2_young_unconvertible_fee_counterexample :
    checked_min_creation_time 10 10 (-100) 100 = some 0 ∧
    (0 : ℤ) ≤ wYoung.metadata.creationDate ∧
    (filter_orders_with_insufficient_fees (fun _ => none) wF64 (some 1) 1 10 10
        (-100) 100 [wYoung]).1 = Except.ok () ∧
    (filter_orders_with_insufficient_fees (fun _ => none) wF64 (some 1) 1 10 10
        (-100) 100 [wYoung]).2 = [] :=
  ⟨by decide, by decide, rfl, rfl⟩

/-- C2 amended: for every successful invocation of the fee-viability filter,
an order whose creation timestamp is at or after `now - min_age` is retained
regardless of its fee amount, provided its fee converts to native units; a
young order whose fee fails to convert (missing sell-token price or
unrepresentable rational) is dropped, because the conversion is performed and
checked before the age exemption. -/
theorem C2_young_orders_retained_iff_fee_converts (externalPrices : Token → Option ℚ)
    (toF64 : ℚ → Option ℚ) (effectiveGasPrice maxGasSurchargeFactor : ℚ)
    (now minAge minTs maxTs minCreationTime : ℤ) (orders : List Order)
    (hmct : checked_min_creation_time now minAge minTs maxTs = some minCreationTime) :
    ∀ o ∈ orders, minCreationTime ≤ o.metadata.creationDate →
      (o ∈ (filter_orders_with_insufficient_fees externalPrices toF64
          (some effectiveGasPrice) maxGasSurchargeFactor now minAge minTs maxTs
          orders).2 ↔
        (order_native_full_fee_amount externalPrices toF64 o).isSome) := by
  simp only [filter_orders_with_insufficient_fees, hmct]
  intro o ho hyoung
  rw [List.mem_filter]
  cases hf : order_native_full_fee_amount externalPrices toF64 o with
  | none =>
    simp only [order_retain, hf, Option.isSome_none]
    constructor
    · rintro ⟨-, h⟩
      exact Bool.noConfusion h
    · intro h
      exact Bool.noConfusion h
  | some f =>
    simp [order_retain, hf, if_pos hyoung, ho]

theorem C2_young_orders_retained_iff_fee_converts_witness :
    wYoung ∈ (filter_orders_with_insufficient_fees wPrices wF64 (some 4) 2 10 5
        (-100) 100 [wOldKeep, wYoung]).2 ↔
      (order_native_full_fee_amount wPrices wF64 wYoung).isSome :=
  C2_young_orders_retained_iff_fee_converts wPrices wF64 4 2 10 5 (-100) 100 5
    [wOldKeep, wYoung] (by decide) wYoung (by decide) (by decide)

/-- C8: if the gas-price estimator fails, the whole fee-viability filter call
returns an error and the order collection is left completely unchanged — no
order is removed. -/
theorem C8_gas_estimate_failure_is_hard_error (externalPrices : Token → Option ℚ)
    (toF64 : ℚ → Option ℚ) (maxGasSurchargeFactor : ℚ)
    (now minAge minTs maxTs : ℤ) (orders : List Order) :
    filter_orders_with_insufficient_fees externalPrices toF64 none
        maxGasSurchargeFactor now minAge minTs maxTs orders =
      (Except.error "failed to estimate gas price for solving", orders) := rfl

/-! ## Claims about Token Graph Reachability -/

/-- The reachability example of the spec: reference token 10, pairs
{(10,11),(11,12)} and a disjoint pair (13,14). -/
def exampleLiq : List Liquidity :=
  [Liquidity.constantProduct
      { token0 := 10, token1 := 11, reserve0 := 0, reserve1 := 0, fee := 0 },
    Liquidity.constantProduct
      { token0 := 11, token1 := 12, reserve0 := 0, reserve1 := 0, fee := 0 },
    Liquidity.constantProduct
      { token0 := 13, token1 := 14, reserve0 := 0, reserve1 := 0, fee := 0 }]

/-- C4: the fee-connected token computation returns exactly the tokens
transitively connected to the reference token through the unordered token
pairs contributed by pool liquidity; passthrough limit orders contribute no
pairs; the resulting set is independent of the order in which the pairs are
scanned; for pairs {(R,A),(A,B)} the result is exactly {R,A,B}, and a
disjoint pair (C,D) never adds its tokens. -/
theorem C4_fee_connected_tokens_closure (liquidity : List Liquidity)
    (nativeToken : Token) :
    (∀ t, t ∈ compute_fee_connected_tokens liquidity nativeToken ↔
      Connected (liquidity.flatMap Liquidity.all_token_pairs) nativeToken t) ∧
    (∀ liquidity' : List Liquidity,
      (∀ p, p ∈ liquidity'.flatMap Liquidity.all_token_pairs ↔
        p ∈ liquidity.flatMap Liquidity.all_token_pairs) →
      ∀ t, (t ∈ compute_fee_connected_tokens liquidity' nativeToken ↔
        t ∈ compute_fee_connected_tokens liquidity nativeToken)) ∧
    (∀ o : LimitOrder, (Liquidity.limitOrder o).all_token_pairs = []) ∧
    ((10 : Token) ∈ compute_fee_connected_tokens exampleLiq 10 ∧
      (11 : Token) ∈ compute_fee_connected_tokens exampleLiq 10 ∧
      (12 : Token) ∈ compute_fee_connected_tokens exampleLiq 10 ∧
      (∀ t ∈ compute_fee_connected_tokens exampleLiq 10,
        t = 10 ∨ t = 11 ∨ t = 12) ∧
      (13 : Token) ∉ compute_fee_connected_tokens exampleLiq 10 ∧
      (14 : Token) ∉ compute_fee_connected_tokens exampleLiq 10) := by
  refine ⟨fun t => mem_closureLoop_iff_connected _ nativeToken t, ?_, fun _ => rfl, ?_⟩
  · intro liq' h t
    constructor
    · intro ht
      exact (mem_closureLoop_iff_connected _ _ t).mpr
        (connected_congr h ((mem_closureLoop_iff_connected _ _ t).mp ht))
    · intro ht
      exact (mem_closureLoop_iff_connected _ _ t).mpr
        (connected_congr (fun p => (h p).symm)
          ((mem_closureLoop_iff_connected _ _ t).mp ht))
  · decide

/-- Witness liquidity for the scan-order independence of C4: the same pairs
in two different orders. -/
def wLiqA : List Liquidity :=
  [Liquidity.constantProduct
      { token0 := 20, token1 := 21, reserve0 := 0, reserve1 := 0, fee := 0 },
    Liquidity.constantProduct
      { token0 := 21, token1 := 22, reserve0 := 0, reserve1 := 0, fee := 0 }]

def wLiqB : List Liquidity :=
  [Liquidity.constantProduct
      { token0 := 21, token1 := 22, reserve0 := 0, reserve1 := 0, fee := 0 },
    Liquidity.constantProduct
      { token0 := 20, token1 := 21, reserve0 := 0, reserve1 := 0, fee := 0 }]

theorem C4_fee_connected_tokens_closure_witness :
    (22 : Token) ∈ compute_fee_connected_tokens wLiqB 20 ↔
      (22 : Token) ∈ compute_fee_connected_tokens wLiqA 20 :=
  (C4_fee_connected_tokens_closure wLiqA 20).2.1 wLiqB
    (by
      intro p
      simp [wLiqA, wLiqB, Liquidity.all_token_pairs, or_comm])
    22

/-! ## Claims about the Model Compiler -/

theorem mem_order_models_iff (orders : List LimitOrder)
    (feeConnectedTokens : List Token) (gasModel : GasModel) (i : Nat) :
    (∃ m, (i, m) ∈ order_models orders feeConnectedTokens gasModel) ↔
      ∃ o, orders[i]? = some o ∧
        (o.sellToken ∈ feeConnectedTokens ∨ o.buyToken ∈ feeConnectedTokens) := by
  constructor
  · rintro ⟨m, hm⟩
    obtain ⟨⟨j, o⟩, ha, hfa⟩ := List.mem_filterMap.mp hm
    by_cases hc : o.sellToken ∈ feeConnectedTokens ∨ o.buyToken ∈ feeConnectedTokens
    · rw [if_pos hc] at hfa
      injection hfa with hfa
      injection hfa with h1 h2
      subst h1
      exact ⟨o, List.mk_mem_enum_iff_getElem?.mp ha, hc⟩
    · rw [if_neg hc] at hfa
      exact Option.noConfusion hfa
  · rintro ⟨o, hget, hc⟩
    exact ⟨limitOrderToModel gasModel o, List.mem_filterMap.mpr
      ⟨(i, o), List.mk_mem_enum_iff_getElem?.mpr hget, by rw [if_pos hc]⟩⟩

theorem enumFrom_keys_pairwise {α : Type} :
    ∀ (n : Nat) (l : List α),
      List.Pairwise (fun a b : Nat × α => a.1 < b.1) (l.enumFrom n)
  | _, [] => List.Pairwise.nil
  | n, x :: xs => by
    rw [List.enumFrom_cons]
    refine List.Pairwise.cons ?_ (enumFrom_keys_pairwise (n + 1) xs)
    rintro ⟨j, y⟩ hb
    have hle := (List.mk_mem_enumFrom_iff_le_and_getElem?_sub.mp hb).1
    exact Nat.lt_of_lt_of_le (Nat.lt_succ_self n) hle

theorem order_models_keys_pairwise (orders : List LimitOrder)
    (feeConnectedTokens : List Token) (gasModel : GasModel) :
    List.Pairwise (fun a b : Nat × OrderModel => a.1 < b.1)
      (order_models orders feeConnectedTokens gasModel) := by
  refine List.Pairwise.filterMap _ ?_ (enumFrom_keys_pairwise 0 orders)
  intro a a' hR b hb b' hb'
  have hb1 : b.1 = a.1 := by
    by_cases hc : a.2.sellToken ∈ feeConnectedTokens ∨ a.2.buyToken ∈ feeConnectedTokens
    · rw [if_pos hc, Option.mem_def, Option.some.injEq] at hb
      rw [← hb]
    · rw [if_neg hc] at hb
      exact absurd hb (by simp)
  have hb'1 : b'.1 = a'.1 := by
    by_cases hc : a'.2.sellToken ∈ feeConnectedTokens ∨ a'.2.buyToken ∈ feeConnectedTokens
    · rw [if_pos hc, Option.mem_def, Option.some.injEq] at hb'
      rw [← hb']
    · rw [if_neg hc] at hb'
      exact absurd hb' (by simp)
  rw [hb1, hb'1]
  exact hR

/-- C5: an order given to model compilation appears in the compiled order
table (keyed by its position) iff at least one of its sell or buy token is in
the fee-connected token set; an order both of whose tokens are outside that
set never appears in the table. -/
theorem C5_order_pruned_iff_not_fee_connected (orders : List LimitOrder)
    (feeConnectedTokens : List Token) (gasModel : GasModel) (i : Nat) :
    (∃ m, (i, m) ∈ order_models orders feeConnectedTokens gasModel) ↔
      ∃ o, orders[i]? = some o ∧
        (o.sellToken ∈ feeConnectedTokens ∨ o.buyToken ∈ feeConnectedTokens) :=
  mem_order_models_iff orders feeConnectedTokens gasModel i

/-- C3 counterexample data: order 0 trades tokens 3 and 4 that no pool
touches; order 1 trades tokens 0 and 1 connected to the native token 0 by a
constant-product pool. -/
def wDiscOrder : LimitOrder :=
  { id := "0", sellToken := 3, buyToken := 4, sellAmount := 1, buyAmount := 1,
    kind := OrderKind.sell, partiallyFillable := false,
    scaledUnsubsidizedFee := 0, unscaledSubsidizedFee := 0,
    isLiquidityOrder := false, exchange := Exchange.gnosisProtocol }

def wConnOrder : LimitOrder :=
  { id := "1", sellToken := 0, buyToken := 1, sellAmount := 1, buyAmount := 1,
    kind := OrderKind.sell, partiallyFillable := false,
    scaledUnsubsidizedFee := 0, unscaledSubsidizedFee := 0,
    isLiquidityOrder := false, exchange := Exchange.gnosisProtocol }

def wPool01 : Liquidity :=
  Liquidity.constantProduct
    { token0 := 0, token1 := 1, reserve0 := 10, reserve1 := 10, fee := 0 }

/-- C3 counterexample: compiling orders [`wDiscOrder`, `wConnOrder`] with one
pool (0,1) and native token 0 drops the disconnected order 0; yet the
Settlement Context's order list still contains the dropped order (the claim
says it is absent from both), and the order table's only key is 1, the
retained order's original position — a dense re-numbering of the one-element
filtered sequence would be key 0. -/
theorem C3_dropped_order_in_context_counterexample :
    ((prepare_model "net" 0 [] [] [] 9 [wDiscOrder, wConnOrder] [wPool01]
        1).1.orders.map Prod.fst = [1]) ∧
    ((prepare_model "net" 0 [] [] [] 9 [wDiscOrder, wConnOrder] [wPool01]
        1).2.orders = [wDiscOrder, wConnOrder]) ∧
    wDiscOrder ∈ (prepare_model "net" 0 [] [] [] 9 [wDiscOrder, wConnOrder]
        [wPool01] 1).2.orders ∧
    ((1 : Nat) ≠ 0) :=
  ⟨rfl, rfl, by decide, by decide⟩

/-- C3 amended: in every compilation, an order dropped for lacking
fee-connectivity is absent from the compiled order table but remains in the
Settlement Context's order list, which keeps the full input order list; the
table entries are keyed by each retained order's original position in that
list — an order-preserving numbering with gaps where orders were dropped,
not a dense 0..n-1 re-numbering — so table entries are in one-to-one
correspondence with the fee-connected orders of the context. -/
theorem C3_order_table_vs_settlement_context (networkName : String)
    (nativeToken : Token) (tokenInfos : List (Token × TokenInfo))
    (buffersResult : List (Token × Except BufferRetrievalError Nat))
    (priceEstimates : List (Token × F64)) (auctionId : Nat)
    (orders : List LimitOrder) (liquidity : List Liquidity) (gasPrice : ℚ) :
    ((prepare_model networkName nativeToken tokenInfos buffersResult
        priceEstimates auctionId orders liquidity gasPrice).2.orders = orders) ∧
    (∀ i, (∃ m, (i, m) ∈ (prepare_model networkName nativeToken tokenInfos
        buffersResult priceEstimates auctionId orders liquidity
        gasPrice).1.orders) ↔
      ∃ o, orders[i]? = some o ∧
        (o.sellToken ∈ compute_fee_connected_tokens liquidity nativeToken ∨
          o.buyToken ∈ compute_fee_connected_tokens liquidity nativeToken)) ∧
    List.Pairwise (fun a b => a.1 < b.1)
      (prepare_model networkName nativeToken tokenInfos buffersResult
        priceEstimates auctionId orders liquidity gasPrice).1.orders :=
  ⟨rfl,
    fun i => mem_order_models_iff orders
      (compute_fee_connected_tokens liquidity nativeToken)
      { nativeToken := nativeToken, gasPrice := gasPrice } i,
    order_models_keys_pairwise orders
      (compute_fee_connected_tokens liquidity nativeToken)
      { nativeToken := nativeToken, gasPrice := gasPrice }⟩

/-- C10: in every compiled model, the token table contains exactly the tokens
present in the token-info service's response — a token without a token-info
entry is absent from the table altogether, regardless of the price estimates
and buffer results supplied. -/
theorem C10_token_table_keys_are_token_infos (networkName : String)
    (nativeToken : Token) (tokenInfos : List (Token × TokenInfo))
    (buffersResult : List (Token × Except BufferRetrievalError Nat))
    (priceEstimates : List (Token × F64)) (auctionId : Nat)
    (orders : List LimitOrder) (liquidity : List Liquidity) (gasPrice : ℚ)
    (t : Token) :
    (∃ m, (t, m) ∈ (prepare_model networkName nativeToken tokenInfos
        buffersResult priceEstimates auctionId orders liquidity
        gasPrice).1.tokens) ↔
      ∃ info, (t, info) ∈ tokenInfos := by
  constructor
  · rintro ⟨m, hm⟩
    obtain ⟨⟨t', info⟩, ha, heq⟩ := List.mem_map.mp hm
    injection heq with h1 h2
    subst h1
    exact ⟨info, ha⟩
  · rintro ⟨info, hi⟩
    exact ⟨_, List.mem_map.mpr ⟨(t, info), hi, rfl⟩⟩

/-! ## Claims about the Instance Cache and the Solve Orchestrator -/

/-- C6: for every sequential solve call's cache critical section: if the slot
holds an entry with the same solve id, the cached model and context are
returned, no compilation happens and the slot is unchanged; otherwise the
fresh compilation is returned and the slot is replaced wholesale by the new
(id, model, context) entry, whatever it contained before; the slot holds at
most one entry (it is an `Option`) and is never partially updated —
afterwards it is either exactly what it was or exactly the fresh entry. -/
theorem C6_instance_cache_protocol (cache : Option InstanceData) (id : Nat)
    (fresh : BatchAuctionModel × SettlementContext) :
    (∀ d, cache = some d → d.solveId = id →
      solveCacheStep cache id fresh = ((d.model, d.context), some d, false)) ∧
    ((∀ d, cache = some d → d.solveId ≠ id) →
      solveCacheStep cache id fresh =
        (fresh, some { solveId := id, model := fresh.1, context := fresh.2 }, true)) ∧
    ((solveCacheStep cache id fresh).2.1 = cache ∨
      (solveCacheStep cache id fresh).2.1 =
        some { solveId := id, model := fresh.1, context := fresh.2 }) := by
  cases cache with
  | none =>
    refine ⟨?_, fun _ => rfl, Or.inr rfl⟩
    intro d hd
    exact Option.noConfusion hd
  | some d =>
    by_cases h : d.solveId = id
    · refine ⟨?_, ?_, ?_⟩
      · rintro d' hd' _
        injection hd' with hd'
        subst hd'
        simp [solveCacheStep, h]
      · intro hne
        exact absurd h (hne d rfl)
      · left
        simp [solveCacheStep, h]
    · refine ⟨?_, ?_, ?_⟩
      · rintro d' hd' hid
        injection hd' with hd'
        subst hd'
        exact absurd hid h
      · intro _
        simp [solveCacheStep, h]
      · right
        simp [solveCacheStep, h]

/-- Concrete cache data for the cache-claim witnesses. -/
def wModel : BatchAuctionModel :=
  { tokens := [], orders := [], amms := [], metadata := none }

def wContext : SettlementContext := { orders := [], liquidity := [] }

def wData : InstanceData := { solveId := 5, model := wModel, context := wContext }

theorem C6_instance_cache_protocol_witness :
    solveCacheStep (some wData) 5 (wModel, wContext) =
      ((wData.model, wData.context), some wData, false) :=
  (C6_instance_cache_protocol (some wData) 5 (wModel, wContext)).1 wData rfl rfl

theorem invokeEngine_budgets
    (engine : BatchAuctionModel → ℤ → Except String SettledBatchAuctionModel)
    (convert : SettledBatchAuctionModel → SettlementContext → Except String Settlement)
    (modelContext : BatchAuctionModel × SettlementContext)
    (cacheAfter : Option InstanceData) (compiled : Bool) (timeout : ℤ) :
    (invokeEngine engine convert modelContext cacheAfter compiled
        timeout).engineBudgets = [timeout] := by
  unfold invokeEngine
  cases heng : engine modelContext.1 timeout with
  | error e => rfl
  | ok settled =>
    obtain ⟨plan⟩ := settled
    cases plan with
    | false => rfl
    | true =>
      cases hcv : convert { hasExecutionPlan := true } modelContext.2 with
      | ok s => simp [hcv]
      | error e => simp [hcv]

/-- Abstract engine and conversion collaborators for the orchestrator
witnesses: the engine reports no execution plan, conversion always
succeeds. -/
def wEngineOk : BatchAuctionModel → ℤ → Except String SettledBatchAuctionModel :=
  fun _ _ => Except.ok { hasExecutionPlan := false }

def wConvert : SettledBatchAuctionModel → SettlementContext → Except String Settlement :=
  fun _ _ => Except.ok { tag := 0 }

/-- C7 counterexample: when the deadline exactly equals the sampled "now",
`checked_duration_since` yields `some 0`, and the external engine is invoked
with a zero — non-positive — time budget, contradicting the claim that the
engine is never invoked with a non-positive budget. -/
theorem C7_zero_budget_counterexample :
    (solve wEngineOk wConvert "net" 0 [] [] [] none 1 [wConnOrder] [] 1 5
        5).engineBudgets = [0] := rfl

/-- C7 amended: for every solve call with a nonempty order list whose
deadline lies strictly in the past when the remaining budget is computed, the
call fails with the timeout error and the engine is not invoked (no recorded
budget); and the engine is never invoked with a *negative* budget — every
recorded budget equals `deadline - now ≥ 0`, zero being possible exactly when
the deadline equals "now". -/
theorem C7_past_deadline_fails_before_engine
    (engine : BatchAuctionModel → ℤ → Except String SettledBatchAuctionModel)
    (convert : SettledBatchAuctionModel → SettlementContext → Except String Settlement)
    (networkName : String) (nativeToken : Token)
    (tokenInfos : List (Token × TokenInfo))
    (buffersResult : List (Token × Except BufferRetrievalError Nat))
    (priceEstimates : List (Token × F64)) (cache : Option InstanceData)
    (id : Nat) (orders : List LimitOrder) (liquidity : List Liquidity)
    (gasPrice : ℚ) :
    (∀ deadline now : ℤ, orders ≠ [] → deadline < now →
      (solve engine convert networkName nativeToken tokenInfos buffersResult
          priceEstimates cache id orders liquidity gasPrice deadline
          now).result = Except.error "no time left to send request" ∧
      (solve engine convert networkName nativeToken tokenInfos buffersResult
          priceEstimates cache id orders liquidity gasPrice deadline
          now).engineBudgets = []) ∧
    (∀ deadline now : ℤ,
      ∀ b ∈ (solve engine convert networkName nativeToken tokenInfos
          buffersResult priceEstimates cache id orders liquidity gasPrice
          deadline now).engineBudgets, 0 ≤ b) := by
  constructor
  · intro deadline now ho hlt
    obtain ⟨o, os, rfl⟩ := List.exists_cons_of_ne_nil ho
    have hnd : checked_duration_since deadline now = none := by
      rw [checked_duration_since, if_neg (not_le.mpr hlt)]
    constructor <;> simp [solve, hnd]
  · intro deadline now b hb
    by_cases he : orders.isEmpty
    · simp [solve, he] at hb
    · cases hcd : checked_duration_since deadline now with
      | none =>
        simp [solve, he, hcd] at hb
      | some t =>
        have ht : 0 ≤ t ∧ t = deadline - now := by
          rw [checked_duration_since] at hcd
          split at hcd
          · rename_i hle
            injection hcd with hcd
            subst hcd
            exact ⟨Int.sub_nonneg.mpr hle, rfl⟩
          · exact Option.noConfusion hcd
        have hbud := invokeEngine_budgets engine convert
          (solveCacheStep cache id (prepare_model networkName nativeToken
            tokenInfos buffersResult priceEstimates id
            (orders ++ liquidity.filterMap fun l =>
              match l with
              | Liquidity.limitOrder order => some order
              | _ => none) liquidity gasPrice)).1
          (solveCacheStep cache id (prepare_model networkName nativeToken
            tokenInfos buffersResult priceEstimates id
            (orders ++ liquidity.filterMap fun l =>
              match l with
              | Liquidity.limitOrder order => some order
              | _ => none) liquidity gasPrice)).2.1
          (solveCacheStep cache id (prepare_model networkName nativeToken
            tokenInfos buffersResult priceEstimates id
            (orders ++ liquidity.filterMap fun l =>
              match l with
              | Liquidity.limitOrder order => some order
              | _ => none) liquidity gasPrice)).2.2 t
        simp [solve, he, hcd, hbud] at hb
        subst hb
        exact ht.1

theorem C7_past_deadline_fails_before_engine_witness :
    (solve wEngineOk wConvert "net" 0 [] [] [] none 1 [wConnOrder] [] 1 3
        5).result = Except.error "no time left to send request" ∧
    (solve wEngineOk wConvert "net" 0 [] [] [] none 1 [wConnOrder] [] 1 3
        5).engineBudgets = [] :=
  (C7_past_deadline_fails_before_engine wEngineOk wConvert "net" 0 [] [] []
    none 1 [wConnOrder] [] 1).1 3 5 (by decide) (by decide)

/-- C9: the `instance_cache` mutex guard is held from the cache check through
the write, so the critical sections of two concurrent solve calls can only
interleave as one of the two serial orders; in either order, for the same new
auction id exactly the first-entering call compiles and the other call
observes the first's stored model and context without compiling; and a call
for a different auction id always recompiles and replaces the slot. -/
theorem C9_concurrent_solve_single_compilation (cache : Option InstanceData)
    (id idOther : Nat)
    (freshA freshB freshOther : BatchAuctionModel × SettlementContext)
    (hnew : ∀ d, cache = some d → d.solveId ≠ id) :
    (runTwoSerialized true cache id id freshA freshB =
      ((freshA, true), (freshA, false),
        some { solveId := id, model := freshA.1, context := freshA.2 })) ∧
    (runTwoSerialized false cache id id freshA freshB =
      ((freshB, false), (freshB, true),
        some { solveId := id, model := freshB.1, context := freshB.2 })) ∧
    (∀ d, cache = some d → d.solveId ≠ idOther →
      solveCacheStep cache idOther freshOther =
        (freshOther,
          some { solveId := idOther, model := freshOther.1, context := freshOther.2 },
          true)) := by
  have hmiss : ∀ fresh : BatchAuctionModel × SettlementContext,
      solveCacheStep cache id fresh =
        (fresh, some { solveId := id, model := fresh.1, context := fresh.2 }, true) := by
    intro fresh
    cases cache with
    | none => rfl
    | some d => simp [solveCacheStep, hnew d rfl]
  refine ⟨?_, ?_, ?_⟩
  · simp only [runTwoSerialized, if_true, hmiss freshA]
    simp [solveCacheStep]
  · simp only [runTwoSerialized, Bool.false_eq_true, if_false, hmiss freshB]
    simp [solveCacheStep]
  · intro d hd hne
    subst hd
    simp [solveCacheStep, hne]

theorem C9_concurrent_solve_single_compilation_witness :
    runTwoSerialized true none 5 5 (wModel, wContext) (wModel, wContext) =
      (((wModel, wContext), true), ((wModel, wContext), false),
        some { solveId := 5, model := wModel, context := wContext }) :=
  (C9_concurrent_solve_single_compilation none 5 0 (wModel, wContext)
    (wModel, wContext) (wModel, wContext)
    (fun _ h => Option.noConfusion h)).1

end Services
